import Mathlib

/-!
Verification of the dependency-tracker core of the `tukey` static analyzer
(`internal/analyzer/dependency_tracker.go` together with the data model in
`internal/models`).  Go maps are modelled as association lists with
Go-assignment semantics (`GoMap.insert` overwrites the binding of an existing
key in place, `GoMap.erase` removes it); Go's `for ... range` over a map has an
unspecified iteration order, which is modelled by an explicit `order` argument
threaded into every function that ranges over the node map.
-/

namespace Tukey

/-- Association-list model of a Go `map[string]α`. -/
abbrev GoMap (α : Type) := List (String × α)

namespace GoMap

/-- Go map read `m[k]` (as the `value, ok` form): first binding of `k`. -/
def find? {α : Type} : GoMap α → String → Option α
  | [], _ => none
  | (k', v) :: rest, k => if k' == k then some v else find? rest k

/-- Go map assignment `m[k] = v`: overwrite the existing binding, else append. -/
def insert {α : Type} : GoMap α → String → α → GoMap α
  | [], k, v => [(k, v)]
  | (k', v') :: rest, k, v =>
      if k' == k then (k, v) :: rest else (k', v') :: insert rest k v

/-- Go `delete(m, k)`. -/
def erase {α : Type} : GoMap α → String → GoMap α
  | [], _ => []
  | (k', v') :: rest, k =>
      if k' == k then erase rest k else (k', v') :: erase rest k

/-- Sum of `f` over all stored values. -/
def valSum {α : Type} (f : α → Nat) (m : GoMap α) : Nat :=
  (m.map (fun p => f p.2)).sum

end GoMap

/-- `models.CodeElement` (field `Type` is rendered `typ`, `Namespace` is
rendered `ns`; Lean reserves both words). -/
structure CodeElement where
  typ : String
  name : String
  ns : String
  className : String
  visibility : String
  isStatic : Bool
  isAbstract : Bool
  line : Nat
  file : String
  parameters : List String
  returnType : String
  deriving Repr, DecidableEq

/-- `models.UsageElement`. -/
structure UsageElement where
  typ : String
  name : String
  context : String
  line : Nat
  isStatic : Bool
  deriving Repr, DecidableEq

/-- `models.ParsedFile`. -/
structure ParsedFile where
  path : String
  ns : String
  uses : List String
  elements : List CodeElement
  usage : List UsageElement
  deriving Repr, DecidableEq

/-- `models.DependencyRef`. -/
structure DependencyRef where
  targetID : String
  targetName : String
  typ : String
  count : Nat
  lines : List Nat
  context : String
  deriving Repr, DecidableEq

/-- `models.DependencyNode` (maps are `GoMap`s). -/
structure DependencyNode where
  id : String
  name : String
  typ : String
  file : String
  ns : String
  className : String
  line : Nat
  dependencies : GoMap DependencyRef
  dependents : GoMap DependencyRef
  score : Nat
  deriving Repr, DecidableEq

/-- `models.DependencyGraph` (without the mutex, which has no data content). -/
structure DependencyGraph where
  nodes : GoMap DependencyNode
  totalNodes : Nat
  totalEdges : Nat
  orphans : List DependencyNode
  highlyDepended : List DependencyNode
  complexNodes : List DependencyNode
  deriving Repr, DecidableEq

/-- `analyzer.DependencyTracker`. -/
structure DependencyTracker where
  graph : DependencyGraph
  nodeIndex : GoMap String
  namespaceMap : GoMap String
  allUsage : List UsageElement
  deriving Repr, DecidableEq

/-- `NewDependencyTracker`. -/
def NewDependencyTracker : DependencyTracker :=
  { graph := { nodes := [], totalNodes := 0, totalEdges := 0,
               orphans := [], highlyDepended := [], complexNodes := [] },
    nodeIndex := [], namespaceMap := [], allUsage := [] }

/-- `getFullName`. -/
def getFullName (ns name : String) : String :=
  if ns == "" then name else ns ++ "\\" ++ name

/-- Character-level splitter for the separator `"::"`, the only separator the
source splits usage names on.  Mirrors Go `strings.Split(s, "::")`:
greedy left-to-right, adjacent separators produce empty pieces. -/
def splitColons (acc : List Char) : List Char → List String
  | [] => [String.mk acc.reverse]
  | ':' :: ':' :: rest => String.mk acc.reverse :: splitColons [] rest
  | c :: rest => splitColons (c :: acc) rest

/-- Go `strings.Split(s, "::")`. -/
def splitOnColons (s : String) : List String :=
  splitColons [] s.data

/-- Go `strings.Contains(s, "::")`. -/
def containsColons (s : String) : Bool :=
  1 < (splitOnColons s).length

/-- `calculateComplexityScore`. -/
def calculateComplexityScore (element : CodeElement) : Nat :=
  if element.typ == "class" then
    5 + (if element.isAbstract then 2 else 0)
  else if element.typ == "method" || element.typ == "function" then
    3 + element.parameters.length + (if element.isStatic then 1 else 0)
      + (if element.isAbstract then 2 else 0)
  else if element.typ == "property" then
    2 + (if element.isStatic then 1 else 0)
  else
    1

/-- Node id `fmt.Sprintf("%s:%s:%d", element.Type, fullName, element.Line)`. -/
def nodeID (e : CodeElement) : String :=
  e.typ ++ ":" ++ getFullName e.ns e.name ++ ":" ++ toString e.line

/-- The `models.DependencyNode` literal built in `createNodes`. -/
def mkNode (filePath : String) (e : CodeElement) : DependencyNode :=
  { id := nodeID e
    name := e.name
    typ := e.typ
    file := filePath
    ns := e.ns
    className := e.className
    line := e.line
    dependencies := []
    dependents := []
    score := calculateComplexityScore e }

/-- Body of the per-element loop of `createNodes`: store the node, index the
full name, then apply the conditional short-name indexing policy. -/
def ingestElement (dt : DependencyTracker) (filePath : String)
    (e : CodeElement) : DependencyTracker :=
  let fullName := getFullName e.ns e.name
  let nid := nodeID e
  let g := { dt.graph with nodes := GoMap.insert dt.graph.nodes nid (mkNode filePath e) }
  let idx := GoMap.insert dt.nodeIndex fullName nid
  if e.ns == "" then
    -- Global namespace - safe to index by short name
    { dt with graph := g, nodeIndex := GoMap.insert idx e.name nid }
  else if (GoMap.find? idx e.name).isSome then
    -- Conflict: remove the short-name index (and the namespace map entry
    -- when the element is a class)
    { dt with graph := g,
              nodeIndex := GoMap.erase idx e.name,
              namespaceMap :=
                if e.typ == "class" then GoMap.erase dt.namespaceMap e.name
                else dt.namespaceMap }
  else
    -- No conflict yet - add a short-name index
    { dt with graph := g,
              nodeIndex := GoMap.insert idx e.name nid,
              namespaceMap :=
                if e.typ == "class" then GoMap.insert dt.namespaceMap e.name fullName
                else dt.namespaceMap }

/-- The double loop of `createNodes` over files and their elements. -/
def ingestAll (dt : DependencyTracker) (parsedFiles : List ParsedFile) :
    DependencyTracker :=
  parsedFiles.foldl
    (fun dt file => file.elements.foldl (fun dt e => ingestElement dt file.path e) dt)
    dt

/-- Final statement of `createNodes`: `TotalNodes = len(graph.Nodes)`. -/
def setTotalNodes (dt : DependencyTracker) : DependencyTracker :=
  { dt with graph := { dt.graph with totalNodes := dt.graph.nodes.length } }

/-- `createNodes`. -/
def createNodes (dt : DependencyTracker) (parsedFiles : List ParsedFile) :
    DependencyTracker :=
  setTotalNodes (ingestAll dt parsedFiles)

/-- `findTargetNode`. -/
def findTargetNode (dt : DependencyTracker) (name ns : String) : String :=
  if containsColons name then
    -- static call such as "Response::create": extract just the class name
    let className := (splitOnColons name).headD ""
    let fullName := getFullName ns className
    match GoMap.find? dt.nodeIndex fullName with
    | some nid => nid
    | none =>
      match (GoMap.find? dt.namespaceMap className).bind
              (fun fn => GoMap.find? dt.nodeIndex fn) with
      | some nid => nid
      | none =>
        match GoMap.find? dt.nodeIndex className with
        | some nid =>
          match GoMap.find? dt.graph.nodes nid with
          | some targetNode =>
            if targetNode.ns != "" || targetNode.file != "" then nid else ""
          | none => ""
        | none => ""
  else
    match GoMap.find? dt.nodeIndex name with
    | some nid => nid
    | none =>
      match GoMap.find? dt.nodeIndex (getFullName ns name) with
      | some nid => nid
      | none =>
        match (GoMap.find? dt.namespaceMap name).bind
                (fun fn => GoMap.find? dt.nodeIndex fn) with
        | some nid => nid
        | none => ""

/-- `addDependencyRef`, acting on the node ids of the two node pointers the Go
function receives (both always come from `graph.Nodes`; a lookup miss leaves
the graph unchanged and is unreachable from the call sites). -/
def addDependencyRef (g : DependencyGraph) (sourceID targetID : String)
    (depType : String) (line : Nat) : DependencyGraph :=
  if sourceID == targetID then g  -- No self-dependencies
  else
    match GoMap.find? g.nodes sourceID, GoMap.find? g.nodes targetID with
    | some source, some target =>
      let source' := { source with dependencies :=
        (match GoMap.find? source.dependencies targetID with
        | some dep =>
            GoMap.insert source.dependencies targetID
              { dep with count := dep.count + 1, lines := dep.lines ++ [line] }
        | none =>
            GoMap.insert source.dependencies targetID
              { targetID := targetID, targetName := target.name, typ := depType,
                count := 1, lines := [line], context := "" }) }
      let target' := { target with dependents :=
        (match GoMap.find? target.dependents sourceID with
        | some dep =>
            GoMap.insert target.dependents sourceID
              { dep with count := dep.count + 1, lines := dep.lines ++ [line] }
        | none =>
            GoMap.insert target.dependents sourceID
              { targetID := sourceID, targetName := source.name, typ := depType,
                count := 1, lines := [line], context := "" }) }
      { g with
        nodes := GoMap.insert (GoMap.insert g.nodes sourceID source') targetID target',
        totalEdges := g.totalEdges + 1 }
    | _, _ => g

/-- Proof abbreviation: the `DependencyRef` value that `addDependencyRef`
stores for one side of an edge, as a function of the previously stored entry
(`none` means the edge is newly created). -/
def bumpRef (old : Option DependencyRef) (otherID otherName depType : String)
    (line : Nat) : DependencyRef :=
  match old with
  | some dep => { dep with count := dep.count + 1, lines := dep.lines ++ [line] }
  | none => { targetID := otherID, targetName := otherName, typ := depType,
              count := 1, lines := [line], context := "" }

/-- Proof abbreviation: the source node after `addDependencyRef`. -/
def srcAfter (src tgt : DependencyNode) (t depType : String) (l : Nat) :
    DependencyNode :=
  { src with dependencies :=
      (GoMap.insert src.dependencies t
        (bumpRef (GoMap.find? src.dependencies t) t tgt.name depType l)) }

/-- Proof abbreviation: the target node after `addDependencyRef`. -/
def tgtAfter (src tgt : DependencyNode) (s depType : String) (l : Nat) :
    DependencyNode :=
  { tgt with dependents :=
      (GoMap.insert tgt.dependents s
        (bumpRef (GoMap.find? tgt.dependents s) s src.name depType l)) }

/-- `createDependency`.  `order` models the unspecified iteration order of the
Go `for _, node := range dt.graph.Nodes` loop that searches for the source
node. -/
def createDependency (dt : DependencyTracker) (order : List String)
    (usage : UsageElement) (file : ParsedFile) : DependencyTracker :=
  let sourceID? := order.find? (fun nid =>
    match GoMap.find? dt.graph.nodes nid with
    | some node =>
        node.file == file.path &&
          (usage.context == node.name ||
            (usage.context == node.className && node.typ == "class"))
    | none => false)
  match sourceID? with
  | none => dt  -- Can't find source context
  | some sid =>
    let targetNodeID := findTargetNode dt usage.name file.ns
    if targetNodeID == "" then dt  -- External dependency or not found
    else
      match GoMap.find? dt.graph.nodes targetNodeID with
      | none => dt
      | some _ =>
        { dt with graph := addDependencyRef dt.graph sid targetNodeID usage.typ usage.line }

/-- `createImportDependency` (parameter `file` is unused, as in the source). -/
def createImportDependency (dt : DependencyTracker) (element : CodeElement)
    (importPath : String) (_file : ParsedFile) : DependencyTracker :=
  let sourceNodeID := (GoMap.find? dt.nodeIndex (getFullName element.ns element.name)).getD ""
  if sourceNodeID == "" then dt
  else
    match GoMap.find? dt.graph.nodes sourceNodeID with
    | none => dt
    | some _ =>
      let targetNodeID := (GoMap.find? dt.nodeIndex importPath).getD ""
      if targetNodeID != "" then
        match GoMap.find? dt.graph.nodes targetNodeID with
        | some _ =>
          { dt with graph := addDependencyRef dt.graph sourceNodeID targetNodeID "imports" element.line }
        | none => dt
      else dt

/-- `processFileUsage`. -/
def processFileUsage (dt : DependencyTracker) (order : List String)
    (file : ParsedFile) : DependencyTracker :=
  file.usage.foldl
    (fun dt usage =>
      let dt := { dt with allUsage := dt.allUsage ++ [usage] }
      createDependency dt order usage file)
    dt

/-- `processImports`. -/
def processImports (dt : DependencyTracker) (file : ParsedFile) :
    DependencyTracker :=
  file.uses.foldl
    (fun dt use =>
      file.elements.foldl
        (fun dt element =>
          if element.typ == "class" then createImportDependency dt element use file
          else dt)
        dt)
    dt

/-- `buildRelationships`. -/
def buildRelationships (dt : DependencyTracker) (order : List String)
    (parsedFiles : List ParsedFile) : DependencyTracker :=
  parsedFiles.foldl
    (fun dt file => processImports (processFileUsage dt order file) file)
    dt

/-- `calculateMetrics`. -/
def calculateMetrics (g : DependencyGraph) : DependencyGraph :=
  { g with nodes := g.nodes.map (fun p =>
      (p.1, { p.2 with score :=
        p.2.score + (p.2.dependencies.length + p.2.dependents.length * 2) })) }

/-- Stable insertion of `x` into a list sorted descending by `key` (models one
placement step of the sort). -/
def insertDescBy {α : Type} (key : α → Nat) (x : α) : List α → List α
  | [] => [x]
  | y :: ys => if key y ≤ key x then x :: y :: ys else y :: insertDescBy key x ys

/-- Sort descending by `key`.  Go uses the unstable `sort.Slice`; since the
input order already models the unspecified map-iteration order, a stable sort
is one admissible resolution of the comparator's ties. -/
def sortDescBy {α : Type} (key : α → Nat) : List α → List α
  | [] => []
  | x :: xs => insertDescBy key x (sortDescBy key xs)

/-- `identifyPatterns`.  `order` models the iteration order of
`for _, node := range dt.graph.Nodes` that fills `allNodes`.  Go's
`HighlyDepended = allNodes[:max]` keeps a slice header over the same backing
array that the second `sort.Slice` then reorders in place, so the stored
`HighlyDepended` ends up holding the first `max` elements of the
score-sorted array. -/
def identifyPatterns (g : DependencyGraph) (order : List String) :
    DependencyGraph :=
  let allNodes := order.filterMap (fun nid => GoMap.find? g.nodes nid)
  let byDependents := sortDescBy (fun n => n.dependents.length) allNodes
  let maxHighlyDepended := min 10 byDependents.length
  let orphans := g.orphans ++ byDependents.filter
    (fun n => n.dependencies.length == 0 && n.dependents.length == 0)
  let byScore := sortDescBy (fun n => n.score) byDependents
  { g with
    highlyDepended := byScore.take maxHighlyDepended,
    orphans := orphans,
    complexNodes := byScore.take (min 10 byScore.length) }

/-- `BuildDependencyGraph`.  `order` models the (run-dependent, unspecified)
iteration order used whenever the Go code ranges over `graph.Nodes`. -/
def BuildDependencyGraph (parsedFiles : List ParsedFile) (order : List String) :
    DependencyGraph :=
  identifyPatterns
    (calculateMetrics
      (buildRelationships (createNodes NewDependencyTracker parsedFiles)
        order parsedFiles).graph)
    order


/-! ## Invariant predicates and spec-side definitions -/

/-- Total number of recorded edge occurrences: the sum of `count` over every
dependency entry of every node. -/
def edgeOccurrenceSum (g : DependencyGraph) : Nat :=
  GoMap.valSum (fun n => GoMap.valSum (fun r => r.count) n.dependencies) g.nodes

/-- Edge symmetry: every dependency entry of a stored node is mirrored by a
dependent entry on the stored target node with equal `count` and `lines`, and
vice versa. -/
def EdgeSymm (g : DependencyGraph) : Prop :=
  (∀ s srcN t dep, GoMap.find? g.nodes s = some srcN →
     GoMap.find? srcN.dependencies t = some dep →
     ∃ tgtN dep', GoMap.find? g.nodes t = some tgtN ∧
       GoMap.find? tgtN.dependents s = some dep' ∧
       dep'.count = dep.count ∧ dep'.lines = dep.lines) ∧
  (∀ t tgtN s dep', GoMap.find? g.nodes t = some tgtN →
     GoMap.find? tgtN.dependents s = some dep' →
     ∃ srcN dep, GoMap.find? g.nodes s = some srcN ∧
       GoMap.find? srcN.dependencies t = some dep ∧
       dep.count = dep'.count ∧ dep.lines = dep'.lines)

/-- The two mirrored halves of an edge agree: both absent, or both present
with equal occurrence count and line list. -/
def OptRefMatch : Option DependencyRef → Option DependencyRef → Prop
  | some d, some d' => d'.count = d.count ∧ d'.lines = d.lines
  | none, none => True
  | _, _ => False

/-- Pairwise form of edge symmetry: for any two stored nodes, the dependency
entry of the first toward the second mirrors the dependent entry of the second
toward the first. -/
def EdgeSymmCore (g : DependencyGraph) : Prop :=
  ∀ s t srcN tgtN, GoMap.find? g.nodes s = some srcN →
    GoMap.find? g.nodes t = some tgtN →
    OptRefMatch (GoMap.find? srcN.dependencies t) (GoMap.find? tgtN.dependents s)

/-- Every stored dependency (resp. dependent) entry points at a key that is
itself a stored node. -/
def EdgeEndpointsExist (g : DependencyGraph) : Prop :=
  (∀ s srcN t dep, GoMap.find? g.nodes s = some srcN →
     GoMap.find? srcN.dependencies t = some dep → (GoMap.find? g.nodes t).isSome) ∧
  (∀ t tgtN s dep', GoMap.find? g.nodes t = some tgtN →
     GoMap.find? tgtN.dependents s = some dep' → (GoMap.find? g.nodes s).isSome)

/-- Every stored reference has `count ≥ 1` and exactly one recorded line per
counted occurrence. -/
def RefsWellFormed (g : DependencyGraph) : Prop :=
  ∀ p ∈ g.nodes,
    (∀ q ∈ p.2.dependencies, 1 ≤ q.2.count ∧ q.2.count = q.2.lines.length) ∧
    (∀ q ∈ p.2.dependents, 1 ≤ q.2.count ∧ q.2.count = q.2.lines.length)

/-- Every stored node comes from some ingested element, carries that element's
node id as its key, and still has the score seeded at creation time. -/
def NodesFromElements (files : List ParsedFile) (g : DependencyGraph) : Prop :=
  ∀ p ∈ g.nodes, ∃ f e, f ∈ files ∧ e ∈ f.elements ∧ p.1 = nodeID e ∧
    p.2.score = calculateComplexityScore e

/-- A graph property preserved by every single edge application. -/
def EdgeStepClosed (P : DependencyGraph → Prop) : Prop :=
  ∀ g s t depType l, P g → P (addDependencyRef g s t depType l)

/-- Spec-side definition for claim C6, following the claim's words: for a
static-call usage, split at `::` and return the first hit of (1) the exact
full-name lookup of `namespace\className`, (2) the class-full-name map entry
for `className` followed by a full-name lookup, (3) the short-name entry for
`className`, accepted only when that entry exists and the resolved node has a
non-empty namespace or a non-empty file path. -/
def resolveStaticCallSpec (dt : DependencyTracker) (name ns : String) :
    Option String :=
  let className := (splitOnColons name).headD ""
  let attempt1 := GoMap.find? dt.nodeIndex (getFullName ns className)
  let attempt2 := (GoMap.find? dt.namespaceMap className).bind
    (fun fullName => GoMap.find? dt.nodeIndex fullName)
  let attempt3 := (GoMap.find? dt.nodeIndex className).bind (fun nid =>
    (GoMap.find? dt.graph.nodes nid).bind (fun node =>
      if node.ns != "" || node.file != "" then some nid else none))
  (attempt1 <|> attempt2) <|> attempt3

/-- Spec-side scoring table for claim C4, written as the claim enumerates it:
base 5 (+2 if abstract) for a class; base 3, +1 per parameter, +1 if static,
+2 if abstract for a function or method; base 2, +1 if static for a property;
base 1 for a constant or unrecognized kind. -/
def specStaticScore (e : CodeElement) : Nat :=
  if e.typ = "class" then
    (if e.isAbstract then 5 + 2 else 5)
  else if e.typ = "function" ∨ e.typ = "method" then
    3 + e.parameters.length + (if e.isStatic then 1 else 0)
      + (if e.isAbstract then 2 else 0)
  else if e.typ = "property" then
    (if e.isStatic then 2 + 1 else 2)
  else
    1

/-! ## Concrete fixtures used by counterexamples and witnesses -/

/-- A global-namespace class `A` declared at line 1 of `f.php`. -/
def elA : CodeElement :=
  { typ := "class", name := "A", ns := "", className := "",
    visibility := "", isStatic := false, isAbstract := false, line := 1,
    file := "f.php", parameters := [], returnType := "" }

/-- A global-namespace class `B` declared at line 2 of `f.php`. -/
def elB : CodeElement :=
  { elA with name := "B", line := 2 }

/-- A usage of `B` from inside `A` at the given line. -/
def useAB (l : Nat) : UsageElement :=
  { typ := "calls", name := "B", context := "A", line := l, isStatic := false }

/-- One file declaring `A` and `B`, with `A` referencing `B` twice. -/
def fileAB : ParsedFile :=
  { path := "f.php", ns := "", uses := [], elements := [elA, elB],
    usage := [useAB 10, useAB 11] }

/-- The same file with no usages at all. -/
def fileAB0 : ParsedFile :=
  { path := "f.php", ns := "", uses := [], elements := [elA, elB], usage := [] }

/-- A node-map iteration order listing `A` before `B`. -/
def ordAB : List String := ["class:A:1", "class:B:2"]

/-- Class `Foo` in namespace `nsp`, declared at line `l` of `g.php`. -/
def fooEl (nsp : String) (l : Nat) : CodeElement :=
  { typ := "class", name := "Foo", ns := nsp, className := "", visibility := "",
    isStatic := false, isAbstract := false, line := l, file := "g.php",
    parameters := [], returnType := "" }

/-- Two same-short-name classes in different namespaces. -/
def fileFoo12 : ParsedFile :=
  { path := "g.php", ns := "", uses := [], elements := [fooEl "N1" 1, fooEl "N2" 2],
    usage := [] }

/-- Three same-short-name classes in different namespaces. -/
def fileFoo123 : ParsedFile :=
  { path := "g.php", ns := "", uses := [],
    elements := [fooEl "N1" 1, fooEl "N2" 2, fooEl "N3" 3], usage := [] }

/-- A file declaring only `N1\\Foo`. -/
def fileFoo1 : ParsedFile :=
  { path := "g.php", ns := "", uses := [], elements := [fooEl "N1" 1], usage := [] }

/-- A completed build over `fileAB` (class `A` referencing class `B` twice). -/
def gAB : DependencyGraph := BuildDependencyGraph [fileAB] ordAB

/-- The dependency entry recorded from `A` to `B` in `gAB`. -/
def depABfix : DependencyRef :=
  { targetID := "class:B:2", targetName := "B", typ := "calls", count := 2,
    lines := [10, 11], context := "" }

/-- The node stored for class `A` in `gAB`. -/
def nodeAfix : DependencyNode :=
  { id := "class:A:1", name := "A", typ := "class", file := "f.php", ns := "",
    className := "", line := 1,
    dependencies := [("class:B:2", depABfix)], dependents := [], score := 6 }

/-- Pass-1 graph over `fileAB0` (nodes for `A` and `B`, no edges yet). -/
def g0fix : DependencyGraph := (createNodes NewDependencyTracker [fileAB0]).graph

/-- `g0fix` after applying the same pair twice with two different kinds. -/
def g2fix : DependencyGraph :=
  addDependencyRef (addDependencyRef g0fix "class:A:1" "class:B:2" "calls" 10)
    "class:A:1" "class:B:2" "imports" 11

/-! ## Lemmas about the map model -/

namespace GoMap

theorem find?_insert_self {α : Type} (m : GoMap α) (k : String) (v : α) :
    find? (insert m k v) k = some v := by
  induction m with
  | nil => simp [insert, find?]
  | cons p rest ih =>
    obtain ⟨k', v'⟩ := p
    by_cases h : (k' == k) = true
    · simp [insert, h, find?]
    · simp only [Bool.not_eq_true] at h
      simp [insert, h, find?, ih]

theorem find?_insert_ne {α : Type} (m : GoMap α) {k k' : String} (v : α)
    (h : k' ≠ k) : find? (insert m k v) k' = find? m k' := by
  induction m with
  | nil => simp [insert, find?, beq_eq_false_iff_ne.mpr (Ne.symm h)]
  | cons p rest ih =>
    obtain ⟨k₀, v₀⟩ := p
    by_cases h₀ : (k₀ == k) = true
    · have hk : k₀ = k := by simpa using h₀
      subst hk
      simp [insert, find?, beq_eq_false_iff_ne.mpr h, beq_eq_false_iff_ne.mpr (Ne.symm h)]
    · simp only [Bool.not_eq_true] at h₀
      by_cases h₁ : (k₀ == k') = true
      · simp [insert, h₀, find?, h₁]
      · simp only [Bool.not_eq_true] at h₁
        simp [insert, h₀, find?, h₁, ih]

theorem find?_erase_self {α : Type} (m : GoMap α) (k : String) :
    find? (erase m k) k = none := by
  induction m with
  | nil => simp [erase, find?]
  | cons p rest ih =>
    obtain ⟨k₀, v₀⟩ := p
    by_cases h₀ : (k₀ == k) = true
    · simp [erase, h₀, ih]
    · simp only [Bool.not_eq_true] at h₀
      simp [erase, h₀, find?, ih]

theorem find?_erase_ne {α : Type} (m : GoMap α) {k k' : String}
    (h : k' ≠ k) : find? (erase m k) k' = find? m k' := by
  induction m with
  | nil => simp [erase]
  | cons p rest ih =>
    obtain ⟨k₀, v₀⟩ := p
    by_cases h₀ : (k₀ == k) = true
    · have hk : k₀ = k := by simpa using h₀
      subst hk
      simp [erase, find?, beq_eq_false_iff_ne.mpr (Ne.symm h), ih]
    · simp only [Bool.not_eq_true] at h₀
      by_cases h₁ : (k₀ == k') = true
      · simp [erase, h₀, find?, h₁]
      · simp only [Bool.not_eq_true] at h₁
        simp [erase, h₀, find?, h₁, ih]

theorem mem_insert {α : Type} {m : GoMap α} {k : String} {v : α}
    {p : String × α} (hp : p ∈ insert m k v) : p = (k, v) ∨ p ∈ m := by
  induction m with
  | nil => simpa [insert] using hp
  | cons q rest ih =>
    obtain ⟨k₀, v₀⟩ := q
    by_cases h₀ : k₀ = k
    · subst h₀
      simp only [insert, beq_self_eq_true, if_true, List.mem_cons] at hp
      rcases hp with hp | hp
      · exact Or.inl hp
      · exact Or.inr (List.mem_cons_of_mem _ hp)
    · simp only [insert, beq_eq_false_iff_ne.mpr h₀, Bool.false_eq_true, if_false,
        List.mem_cons] at hp
      rcases hp with hp | hp
      · exact Or.inr (by simp [hp])
      · rcases ih hp with h | h
        · exact Or.inl h
        · exact Or.inr (List.mem_cons_of_mem _ h)

theorem find?_mem {α : Type} {m : GoMap α} {k : String} {v : α}
    (h : find? m k = some v) : (k, v) ∈ m := by
  induction m with
  | nil => simp [find?] at h
  | cons p rest ih =>
    obtain ⟨k₀, v₀⟩ := p
    by_cases h₀ : k₀ = k
    · subst h₀
      simp only [find?, beq_self_eq_true, if_true, Option.some.injEq] at h
      simp [h.symm]
    · simp only [find?, beq_eq_false_iff_ne.mpr h₀, Bool.false_eq_true, if_false] at h
      exact List.mem_cons_of_mem _ (ih h)

theorem valSum_insert_found {α : Type} (f : α → Nat) {m : GoMap α}
    {k : String} {v₀ : α} (v : α) (h : find? m k = some v₀) :
    valSum f (insert m k v) + f v₀ = valSum f m + f v := by
  induction m with
  | nil => simp [find?] at h
  | cons p rest ih =>
    obtain ⟨k₀, v'⟩ := p
    by_cases h₀ : k₀ = k
    · subst h₀
      simp only [find?, beq_self_eq_true, if_true, Option.some.injEq] at h
      subst h
      simp only [insert, beq_self_eq_true, if_true, valSum, List.map_cons, List.sum_cons]
      omega
    · simp only [find?, beq_eq_false_iff_ne.mpr h₀, Bool.false_eq_true, if_false] at h
      have := ih h
      simp only [insert, beq_eq_false_iff_ne.mpr h₀, Bool.false_eq_true, if_false,
        valSum, List.map_cons, List.sum_cons] at this ⊢
      omega

theorem find?_map_value {α β : Type} (f : α → β) (m : GoMap α) (k : String) :
    find? (m.map (fun p => (p.1, f p.2))) k = (find? m k).map f := by
  induction m with
  | nil => simp [find?]
  | cons p rest ih =>
    obtain ⟨k₀, v₀⟩ := p
    by_cases h₀ : k₀ = k
    · subst h₀; simp [find?]
    · simp [find?, beq_eq_false_iff_ne.mpr h₀, ih]

theorem valSum_map_value {α β : Type} (f : β → Nat) (t : α → β) (m : GoMap α) :
    valSum f (m.map (fun p => (p.1, t p.2))) = valSum (fun a => f (t a)) m := by
  simp only [valSum, List.map_map]
  rfl

theorem valSum_eq_zero {α : Type} (f : α → Nat) (m : GoMap α)
    (h : ∀ p ∈ m, f p.2 = 0) : valSum f m = 0 := by
  induction m with
  | nil => simp [valSum]
  | cons p rest ih =>
    have h₀ := h p (by simp)
    have hr := ih (fun q hq => h q (List.mem_cons_of_mem _ hq))
    simp only [valSum, List.map_cons, List.sum_cons] at hr ⊢
    omega

theorem map_fst_insert_found {α : Type} {m : GoMap α} {k : String} {v₀ : α}
    (v : α) (h : find? m k = some v₀) :
    (insert m k v).map Prod.fst = m.map Prod.fst := by
  induction m with
  | nil => simp [find?] at h
  | cons p rest ih =>
    obtain ⟨k₀, v'⟩ := p
    by_cases h₀ : k₀ = k
    · subst h₀; simp [insert]
    · simp only [find?, beq_eq_false_iff_ne.mpr h₀, Bool.false_eq_true, if_false] at h
      simp [insert, beq_eq_false_iff_ne.mpr h₀, ih h]

theorem valSum_insert_none {α : Type} (f : α → Nat) {m : GoMap α}
    {k : String} (v : α) (h : find? m k = none) :
    valSum f (insert m k v) = valSum f m + f v := by
  induction m with
  | nil => simp [insert, valSum]
  | cons p rest ih =>
    obtain ⟨k₀, v'⟩ := p
    by_cases h₀ : k₀ = k
    · subst h₀
      simp [find?] at h
    · simp only [find?, beq_eq_false_iff_ne.mpr h₀, Bool.false_eq_true, if_false] at h
      have := ih h
      simp only [insert, beq_eq_false_iff_ne.mpr h₀, Bool.false_eq_true, if_false,
        valSum, List.map_cons, List.sum_cons] at this ⊢
      omega

end GoMap

/-! ## Characterization of addDependencyRef -/

theorem addDependencyRef_self (g : DependencyGraph) {s t : String}
    (depType : String) (l : Nat) (h : s = t) :
    addDependencyRef g s t depType l = g := by
  simp [addDependencyRef, h]

theorem addDependencyRef_nosrc (g : DependencyGraph) {s t : String}
    (depType : String) (l : Nat) (hs : GoMap.find? g.nodes s = none) :
    addDependencyRef g s t depType l = g := by
  unfold addDependencyRef
  by_cases h : s = t
  · simp [h]
  · simp [beq_eq_false_iff_ne.mpr h, hs]

theorem addDependencyRef_notgt (g : DependencyGraph) {s t : String}
    (depType : String) (l : Nat) (ht : GoMap.find? g.nodes t = none) :
    addDependencyRef g s t depType l = g := by
  unfold addDependencyRef
  by_cases h : s = t
  · simp [h]
  · cases hsrc : GoMap.find? g.nodes s <;>
      simp [beq_eq_false_iff_ne.mpr h, hsrc, ht]

theorem addDependencyRef_eq (g : DependencyGraph) {s t : String}
    {src tgt : DependencyNode} (depType : String) (l : Nat)
    (hne : s ≠ t) (hs : GoMap.find? g.nodes s = some src)
    (ht : GoMap.find? g.nodes t = some tgt) :
    addDependencyRef g s t depType l =
      { g with
        nodes := GoMap.insert (GoMap.insert g.nodes s (srcAfter src tgt t depType l))
                   t (tgtAfter src tgt s depType l),
        totalEdges := g.totalEdges + 1 } := by
  unfold addDependencyRef srcAfter tgtAfter bumpRef
  cases hdep : GoMap.find? src.dependencies t <;>
    cases hdep' : GoMap.find? tgt.dependents s <;>
      simp [beq_eq_false_iff_ne.mpr hne, hs, ht, hdep, hdep']

theorem srcAfter_dependents (src tgt : DependencyNode) (t depType : String)
    (l : Nat) : (srcAfter src tgt t depType l).dependents = src.dependents := rfl

theorem tgtAfter_dependencies (src tgt : DependencyNode) (s depType : String)
    (l : Nat) : (tgtAfter src tgt s depType l).dependencies = tgt.dependencies := rfl

theorem srcAfter_score (src tgt : DependencyNode) (t depType : String)
    (l : Nat) : (srcAfter src tgt t depType l).score = src.score := rfl

theorem tgtAfter_score (src tgt : DependencyNode) (s depType : String)
    (l : Nat) : (tgtAfter src tgt s depType l).score = tgt.score := rfl

theorem srcAfter_dependencies_find? (src tgt : DependencyNode)
    (t depType : String) (l : Nat) (y : String) :
    GoMap.find? (srcAfter src tgt t depType l).dependencies y =
      (if y = t then
        some (bumpRef (GoMap.find? src.dependencies t) t tgt.name depType l)
      else GoMap.find? src.dependencies y) := by
  unfold srcAfter
  by_cases hy : y = t
  · subst hy; simp [GoMap.find?_insert_self]
  · simp [hy, GoMap.find?_insert_ne _ _ hy]

theorem tgtAfter_dependents_find? (src tgt : DependencyNode)
    (s depType : String) (l : Nat) (y : String) :
    GoMap.find? (tgtAfter src tgt s depType l).dependents y =
      (if y = s then
        some (bumpRef (GoMap.find? tgt.dependents s) s src.name depType l)
      else GoMap.find? tgt.dependents y) := by
  unfold tgtAfter
  by_cases hy : y = s
  · subst hy; simp [GoMap.find?_insert_self]
  · simp [hy, GoMap.find?_insert_ne _ _ hy]

theorem addDependencyRef_nodes_find? (g : DependencyGraph) {s t : String}
    {src tgt : DependencyNode} (depType : String) (l : Nat)
    (hst : s ≠ t) (hs : GoMap.find? g.nodes s = some src)
    (ht : GoMap.find? g.nodes t = some tgt) (x : String) :
    GoMap.find? (addDependencyRef g s t depType l).nodes x =
      (if x = t then some (tgtAfter src tgt s depType l)
      else if x = s then some (srcAfter src tgt t depType l)
      else GoMap.find? g.nodes x) := by
  rw [addDependencyRef_eq g depType l hst hs ht]
  by_cases hxt : x = t
  · subst hxt; simp [GoMap.find?_insert_self]
  · rw [if_neg hxt]
    show GoMap.find? (GoMap.insert _ t _) x = _
    rw [GoMap.find?_insert_ne _ _ hxt]
    by_cases hxs : x = s
    · subst hxs; simp [GoMap.find?_insert_self]
    · rw [if_neg hxs, GoMap.find?_insert_ne _ _ hxs]

theorem addDependencyRef_totalNodes (g : DependencyGraph) (s t depType : String)
    (l : Nat) : (addDependencyRef g s t depType l).totalNodes = g.totalNodes := by
  unfold addDependencyRef
  split
  · rfl
  · split <;> rfl

theorem depSum_srcAfter (src tgt : DependencyNode) (t depType : String)
    (l : Nat) :
    GoMap.valSum (fun r => r.count) (srcAfter src tgt t depType l).dependencies
      = GoMap.valSum (fun r => r.count) src.dependencies + 1 := by
  unfold srcAfter
  cases hdep : GoMap.find? src.dependencies t with
  | some dep =>
    have h := GoMap.valSum_insert_found (fun r => r.count)
      { dep with count := dep.count + 1, lines := dep.lines ++ [l] } hdep
    dsimp only at h
    simp only [bumpRef, hdep]
    omega
  | none =>
    have h := GoMap.valSum_insert_none (fun r => r.count)
      (bumpRef none t tgt.name depType l) hdep
    simp only [hdep] at h ⊢
    rw [h]
    rfl

/-! ## Invariant closure under a single edge application -/

theorem edgeSumInv_closed :
    EdgeStepClosed (fun g => g.totalEdges = edgeOccurrenceSum g) := by
  intro g s t depType l h
  by_cases hst : s = t
  · rw [addDependencyRef_self g depType l hst]; exact h
  cases hs : GoMap.find? g.nodes s with
  | none => rw [addDependencyRef_nosrc g depType l hs]; exact h
  | some src =>
  cases ht : GoMap.find? g.nodes t with
  | none => rw [addDependencyRef_notgt g depType l ht]; exact h
  | some tgt =>
  rw [addDependencyRef_eq g depType l hst hs ht]
  have h1 : GoMap.find? (GoMap.insert g.nodes s (srcAfter src tgt t depType l)) t
      = some tgt := by
    rw [GoMap.find?_insert_ne _ _ (Ne.symm hst)]; exact ht
  have e1 := GoMap.valSum_insert_found
    (fun n => GoMap.valSum (fun r => r.count) n.dependencies)
    (tgtAfter src tgt s depType l) h1
  have e2 := GoMap.valSum_insert_found
    (fun n => GoMap.valSum (fun r => r.count) n.dependencies)
    (srcAfter src tgt t depType l) hs
  have e3 : GoMap.valSum (fun r => r.count) (tgtAfter src tgt s depType l).dependencies
      = GoMap.valSum (fun r => r.count) tgt.dependencies := by
    rw [tgtAfter_dependencies]
  have e4 := depSum_srcAfter src tgt t depType l
  unfold edgeOccurrenceSum at h ⊢
  dsimp only at e1 e2 ⊢
  omega

theorem keysInv_closed (ks : List String) (n : Nat) :
    EdgeStepClosed (fun g => g.nodes.map Prod.fst = ks ∧ g.totalNodes = n) := by
  intro g s t depType l h
  obtain ⟨hk, hn⟩ := h
  by_cases hst : s = t
  · rw [addDependencyRef_self g depType l hst]; exact ⟨hk, hn⟩
  cases hs : GoMap.find? g.nodes s with
  | none => rw [addDependencyRef_nosrc g depType l hs]; exact ⟨hk, hn⟩
  | some src =>
  cases ht : GoMap.find? g.nodes t with
  | none => rw [addDependencyRef_notgt g depType l ht]; exact ⟨hk, hn⟩
  | some tgt =>
  rw [addDependencyRef_eq g depType l hst hs ht]
  refine ⟨?_, hn⟩
  have h1 : GoMap.find? (GoMap.insert g.nodes s (srcAfter src tgt t depType l)) t
      = some tgt := by
    rw [GoMap.find?_insert_ne _ _ (Ne.symm hst)]; exact ht
  show (GoMap.insert (GoMap.insert g.nodes s _) t _).map Prod.fst = ks
  rw [GoMap.map_fst_insert_found _ h1, GoMap.map_fst_insert_found _ hs]
  exact hk

theorem refsWF_closed : EdgeStepClosed RefsWellFormed := by
  intro g s t depType l hWF
  by_cases hst : s = t
  · rw [addDependencyRef_self g depType l hst]; exact hWF
  cases hs : GoMap.find? g.nodes s with
  | none => rw [addDependencyRef_nosrc g depType l hs]; exact hWF
  | some src =>
  cases ht : GoMap.find? g.nodes t with
  | none => rw [addDependencyRef_notgt g depType l ht]; exact hWF
  | some tgt =>
  rw [addDependencyRef_eq g depType l hst hs ht]
  have hsrcWF := hWF (s, src) (GoMap.find?_mem hs)
  have htgtWF := hWF (t, tgt) (GoMap.find?_mem ht)
  intro p hp
  rcases GoMap.mem_insert hp with hp | hp
  · -- p is the updated target node
    subst hp
    refine ⟨?_, ?_⟩
    · intro q hq
      rw [tgtAfter_dependencies] at hq
      exact htgtWF.1 q hq
    · intro q hq
      unfold tgtAfter at hq
      rcases GoMap.mem_insert hq with hq | hq
      · subst hq
        cases hd : GoMap.find? tgt.dependents s with
        | some d =>
          have hdWF := htgtWF.2 (s, d) (GoMap.find?_mem hd)
          simp only [bumpRef, hd]
          dsimp only at hdWF ⊢
          constructor
          · omega
          · simp [hdWF.2]
        | none =>
          simp [bumpRef, hd]
      · exact htgtWF.2 q hq
  rcases GoMap.mem_insert hp with hp | hp
  · -- p is the updated source node
    subst hp
    refine ⟨?_, ?_⟩
    · intro q hq
      unfold srcAfter at hq
      rcases GoMap.mem_insert hq with hq | hq
      · subst hq
        cases hd : GoMap.find? src.dependencies t with
        | some d =>
          have hdWF := hsrcWF.1 (t, d) (GoMap.find?_mem hd)
          simp only [bumpRef, hd]
          dsimp only at hdWF ⊢
          constructor
          · omega
          · simp [hdWF.2]
        | none =>
          simp [bumpRef, hd]
      · exact hsrcWF.1 q hq
    · intro q hq
      rw [srcAfter_dependents] at hq
      exact hsrcWF.2 q hq
  · exact hWF p hp

theorem nodesFrom_closed (files : List ParsedFile) :
    EdgeStepClosed (NodesFromElements files) := by
  intro g s t depType l hNF
  by_cases hst : s = t
  · rw [addDependencyRef_self g depType l hst]; exact hNF
  cases hs : GoMap.find? g.nodes s with
  | none => rw [addDependencyRef_nosrc g depType l hs]; exact hNF
  | some src =>
  cases ht : GoMap.find? g.nodes t with
  | none => rw [addDependencyRef_notgt g depType l ht]; exact hNF
  | some tgt =>
  rw [addDependencyRef_eq g depType l hst hs ht]
  intro p hp
  rcases GoMap.mem_insert hp with hp | hp
  · subst hp
    obtain ⟨f, e, hf, he, hid, hsc⟩ := hNF (t, tgt) (GoMap.find?_mem ht)
    exact ⟨f, e, hf, he, hid, by rw [tgtAfter_score]; exact hsc⟩
  rcases GoMap.mem_insert hp with hp | hp
  · subst hp
    obtain ⟨f, e, hf, he, hid, hsc⟩ := hNF (s, src) (GoMap.find?_mem hs)
    exact ⟨f, e, hf, he, hid, by rw [srcAfter_score]; exact hsc⟩
  · exact hNF p hp

theorem symmCore_closed : EdgeStepClosed EdgeSymmCore := by
  intro g s t depType l hSym
  by_cases hst : s = t
  · rw [addDependencyRef_self g depType l hst]; exact hSym
  cases hs : GoMap.find? g.nodes s with
  | none => rw [addDependencyRef_nosrc g depType l hs]; exact hSym
  | some src =>
  cases ht : GoMap.find? g.nodes t with
  | none => rw [addDependencyRef_notgt g depType l ht]; exact hSym
  | some tgt =>
  intro x y nx ny hnx hny
  rw [addDependencyRef_nodes_find? g depType l hst hs ht x] at hnx
  rw [addDependencyRef_nodes_find? g depType l hst hs ht y] at hny
  by_cases hxt : x = t
  · subst x
    rw [if_pos rfl] at hnx
    obtain rfl : tgtAfter src tgt s depType l = nx := by
      exact Option.some.inj hnx
    rw [tgtAfter_dependencies]
    by_cases hyt : y = t
    · subst y
      rw [if_pos rfl] at hny
      obtain rfl : tgtAfter src tgt s depType l = ny := Option.some.inj hny
      rw [tgtAfter_dependents_find?, if_neg (Ne.symm hst)]
      exact hSym t t tgt tgt ht ht
    · rw [if_neg hyt] at hny
      by_cases hys : y = s
      · subst y
        rw [if_pos rfl] at hny
        obtain rfl : srcAfter src tgt t depType l = ny := Option.some.inj hny
        rw [srcAfter_dependents]
        exact hSym t s tgt src ht hs
      · rw [if_neg hys] at hny
        exact hSym t y tgt ny ht hny
  · rw [if_neg hxt] at hnx
    by_cases hxs : x = s
    · subst x
      rw [if_pos rfl] at hnx
      obtain rfl : srcAfter src tgt t depType l = nx := Option.some.inj hnx
      rw [srcAfter_dependencies_find?]
      by_cases hyt : y = t
      · subst y
        rw [if_pos rfl] at hny ⊢
        obtain rfl : tgtAfter src tgt s depType l = ny := Option.some.inj hny
        rw [tgtAfter_dependents_find?, if_pos rfl]
        have hOld := hSym s t src tgt hs ht
        cases hd : GoMap.find? src.dependencies t with
        | some d =>
          cases hd' : GoMap.find? tgt.dependents s with
          | some d' =>
            rw [hd, hd'] at hOld
            obtain ⟨hc, hl⟩ := hOld
            simp only [bumpRef, OptRefMatch]
            exact ⟨by omega, by rw [hl]⟩
          | none =>
            rw [hd, hd'] at hOld
            exact absurd hOld (by simp [OptRefMatch])
        | none =>
          cases hd' : GoMap.find? tgt.dependents s with
          | some d' =>
            rw [hd, hd'] at hOld
            exact absurd hOld (by simp [OptRefMatch])
          | none =>
            simp [bumpRef, OptRefMatch]
      · rw [if_neg hyt] at hny ⊢
        by_cases hys : y = s
        · subst y
          rw [if_pos rfl] at hny
          obtain rfl : srcAfter src tgt t depType l = ny := Option.some.inj hny
          rw [srcAfter_dependents]
          exact hSym s s src src hs hs
        · rw [if_neg hys] at hny
          exact hSym s y src ny hs hny
    · rw [if_neg hxs] at hnx
      by_cases hyt : y = t
      · subst y
        rw [if_pos rfl] at hny
        obtain rfl : tgtAfter src tgt s depType l = ny := Option.some.inj hny
        rw [tgtAfter_dependents_find?, if_neg hxs]
        exact hSym x t nx tgt hnx ht
      · rw [if_neg hyt] at hny
        by_cases hys : y = s
        · subst y
          rw [if_pos rfl] at hny
          obtain rfl : srcAfter src tgt t depType l = ny := Option.some.inj hny
          rw [srcAfter_dependents]
          exact hSym x s nx src hnx hs
        · rw [if_neg hys] at hny
          exact hSym x y nx ny hnx hny

theorem endpoints_closed : EdgeStepClosed EdgeEndpointsExist := by
  intro g s t depType l hEP
  by_cases hst : s = t
  · rw [addDependencyRef_self g depType l hst]; exact hEP
  cases hs : GoMap.find? g.nodes s with
  | none => rw [addDependencyRef_nosrc g depType l hs]; exact hEP
  | some src =>
  cases ht : GoMap.find? g.nodes t with
  | none => rw [addDependencyRef_notgt g depType l ht]; exact hEP
  | some tgt =>
  obtain ⟨hFwd, hBwd⟩ := hEP
  have hkeep : ∀ z : String, (GoMap.find? g.nodes z).isSome →
      (GoMap.find? (addDependencyRef g s t depType l).nodes z).isSome := by
    intro z hz
    rw [addDependencyRef_nodes_find? g depType l hst hs ht z]
    by_cases hzt : z = t
    · simp [hzt]
    · by_cases hzs : z = s
      · simp [hzt, hzs, hst]
      · simpa [hzt, hzs] using hz
  constructor
  · intro x nx y dep hnx hdep
    rw [addDependencyRef_nodes_find? g depType l hst hs ht x] at hnx
    by_cases hxt : x = t
    · subst x
      rw [if_pos rfl] at hnx
      obtain rfl : tgtAfter src tgt s depType l = nx := Option.some.inj hnx
      rw [tgtAfter_dependencies] at hdep
      exact hkeep y (hFwd t tgt y dep ht hdep)
    · rw [if_neg hxt] at hnx
      by_cases hxs : x = s
      · subst x
        rw [if_pos rfl] at hnx
        obtain rfl : srcAfter src tgt t depType l = nx := Option.some.inj hnx
        rw [srcAfter_dependencies_find?] at hdep
        by_cases hyt : y = t
        · subst y
          rw [addDependencyRef_nodes_find? g depType l hst hs ht t, if_pos rfl]
          simp
        · rw [if_neg hyt] at hdep
          exact hkeep y (hFwd s src y dep hs hdep)
      · rw [if_neg hxs] at hnx
        exact hkeep y (hFwd x nx y dep hnx hdep)
  · intro y ny x dep hny hdep
    rw [addDependencyRef_nodes_find? g depType l hst hs ht y] at hny
    by_cases hyt : y = t
    · subst y
      rw [if_pos rfl] at hny
      obtain rfl : tgtAfter src tgt s depType l = ny := Option.some.inj hny
      rw [tgtAfter_dependents_find?] at hdep
      by_cases hxs : x = s
      · subst x
        rw [addDependencyRef_nodes_find? g depType l hst hs ht s,
          if_neg hst, if_pos rfl]
        simp
      · rw [if_neg hxs] at hdep
        exact hkeep x (hBwd t tgt x dep ht hdep)
    · rw [if_neg hyt] at hny
      by_cases hys : y = s
      · subst y
        rw [if_pos rfl] at hny
        obtain rfl : srcAfter src tgt t depType l = ny := Option.some.inj hny
        rw [srcAfter_dependents] at hdep
        exact hkeep x (hBwd s src x dep hs hdep)
      · rw [if_neg hys] at hny
        exact hkeep x (hBwd y ny x dep hny hdep)

/-! ## Pass-1 characterization -/

theorem ingestElement_nodes_mem {dt : DependencyTracker} {filePath : String}
    {e : CodeElement} {p : String × DependencyNode}
    (hp : p ∈ (ingestElement dt filePath e).graph.nodes) :
    p = (nodeID e, mkNode filePath e) ∨ p ∈ dt.graph.nodes := by
  unfold ingestElement at hp
  dsimp only at hp
  split at hp
  · exact GoMap.mem_insert hp
  · split at hp
    · exact GoMap.mem_insert hp
    · exact GoMap.mem_insert hp

theorem ingestElement_totalEdges (dt : DependencyTracker) (filePath : String)
    (e : CodeElement) :
    (ingestElement dt filePath e).graph.totalEdges = dt.graph.totalEdges := by
  unfold ingestElement
  dsimp only
  split
  · rfl
  · split <;> rfl

theorem ingestFileFold_nodes_mem (filePath : String) :
    ∀ (els : List CodeElement) (dt : DependencyTracker)
      (p : String × DependencyNode),
      p ∈ (els.foldl (fun dt e => ingestElement dt filePath e) dt).graph.nodes →
      (∃ e ∈ els, p = (nodeID e, mkNode filePath e)) ∨ p ∈ dt.graph.nodes := by
  intro els
  induction els with
  | nil => intro dt p hp; exact Or.inr hp
  | cons e rest ih =>
    intro dt p hp
    rcases ih (ingestElement dt filePath e) p hp with ⟨e', he', hpe⟩ | hp'
    · exact Or.inl ⟨e', List.mem_cons_of_mem _ he', hpe⟩
    · rcases ingestElement_nodes_mem hp' with hpe | hp''
      · exact Or.inl ⟨e, by simp, hpe⟩
      · exact Or.inr hp''

theorem ingestFileFold_totalEdges (filePath : String) :
    ∀ (els : List CodeElement) (dt : DependencyTracker),
      (els.foldl (fun dt e => ingestElement dt filePath e) dt).graph.totalEdges
        = dt.graph.totalEdges := by
  intro els
  induction els with
  | nil => intro dt; rfl
  | cons e rest ih =>
    intro dt
    rw [List.foldl_cons, ih, ingestElement_totalEdges]

theorem ingestAll_nodes_mem :
    ∀ (files : List ParsedFile) (dt : DependencyTracker)
      (p : String × DependencyNode),
      p ∈ (ingestAll dt files).graph.nodes →
      (∃ f e, f ∈ files ∧ e ∈ f.elements ∧ p = (nodeID e, mkNode f.path e)) ∨
        p ∈ dt.graph.nodes := by
  intro files
  induction files with
  | nil => intro dt p hp; exact Or.inr hp
  | cons f rest ih =>
    intro dt p hp
    rcases ih _ p hp with ⟨f', e', hf', he', hpe⟩ | hp'
    · exact Or.inl ⟨f', e', List.mem_cons_of_mem _ hf', he', hpe⟩
    · rcases ingestFileFold_nodes_mem f.path f.elements dt p hp' with ⟨e, he, hpe⟩ | hp''
      · exact Or.inl ⟨f, e, by simp, he, hpe⟩
      · exact Or.inr hp''

theorem ingestAll_totalEdges :
    ∀ (files : List ParsedFile) (dt : DependencyTracker),
      (ingestAll dt files).graph.totalEdges = dt.graph.totalEdges := by
  intro files
  induction files with
  | nil => intro dt; rfl
  | cons f rest ih =>
    intro dt
    show (ingestAll _ rest).graph.totalEdges = _
    rw [ih, ingestFileFold_totalEdges]

theorem createNodes_nodes (dt : DependencyTracker) (files : List ParsedFile) :
    (createNodes dt files).graph.nodes = (ingestAll dt files).graph.nodes := rfl

theorem createNodes_totalEdges (files : List ParsedFile) :
    (createNodes NewDependencyTracker files).graph.totalEdges = 0 := by
  show (ingestAll NewDependencyTracker files).graph.totalEdges = 0
  rw [ingestAll_totalEdges]
  rfl

theorem createNodes_nodes_mem {files : List ParsedFile}
    {p : String × DependencyNode}
    (hp : p ∈ (createNodes NewDependencyTracker files).graph.nodes) :
    ∃ f e, f ∈ files ∧ e ∈ f.elements ∧ p = (nodeID e, mkNode f.path e) := by
  rw [createNodes_nodes] at hp
  rcases ingestAll_nodes_mem files NewDependencyTracker p hp with h | h
  · exact h
  · simp [NewDependencyTracker] at h

theorem createNodes_symmCore (files : List ParsedFile) :
    EdgeSymmCore (createNodes NewDependencyTracker files).graph := by
  intro s t srcN tgtN hsN htN
  obtain ⟨f, e, _, _, hpe⟩ := createNodes_nodes_mem (GoMap.find?_mem hsN)
  obtain ⟨f', e', _, _, hpe'⟩ := createNodes_nodes_mem (GoMap.find?_mem htN)
  have h1 : srcN = mkNode f.path e := congrArg Prod.snd hpe
  have h2 : tgtN = mkNode f'.path e' := congrArg Prod.snd hpe'
  rw [h1, h2]
  show OptRefMatch (GoMap.find? [] t) (GoMap.find? [] s)
  exact trivial

theorem createNodes_endpoints (files : List ParsedFile) :
    EdgeEndpointsExist (createNodes NewDependencyTracker files).graph := by
  constructor
  · intro s srcN t dep hsN hdep
    obtain ⟨f, e, _, _, hpe⟩ := createNodes_nodes_mem (GoMap.find?_mem hsN)
    have h1 : srcN = mkNode f.path e := congrArg Prod.snd hpe
    rw [h1] at hdep
    exact absurd hdep (by simp [mkNode, GoMap.find?])
  · intro t tgtN s dep htN hdep
    obtain ⟨f, e, _, _, hpe⟩ := createNodes_nodes_mem (GoMap.find?_mem htN)
    have h1 : tgtN = mkNode f.path e := congrArg Prod.snd hpe
    rw [h1] at hdep
    exact absurd hdep (by simp [mkNode, GoMap.find?])

theorem createNodes_refsWF (files : List ParsedFile) :
    RefsWellFormed (createNodes NewDependencyTracker files).graph := by
  intro p hp
  obtain ⟨f, e, _, _, hpe⟩ := createNodes_nodes_mem hp
  have h1 : p.2 = mkNode f.path e := congrArg Prod.snd hpe
  rw [h1]
  exact ⟨fun q hq => absurd hq (by simp [mkNode]),
         fun q hq => absurd hq (by simp [mkNode])⟩

theorem createNodes_edgeSum (files : List ParsedFile) :
    (createNodes NewDependencyTracker files).graph.totalEdges
      = edgeOccurrenceSum (createNodes NewDependencyTracker files).graph := by
  rw [createNodes_totalEdges]
  unfold edgeOccurrenceSum
  have h0 : GoMap.valSum
      (fun n => GoMap.valSum (fun r => r.count) n.dependencies)
      (createNodes NewDependencyTracker files).graph.nodes = 0 := by
    apply GoMap.valSum_eq_zero
    intro p hp
    obtain ⟨f, e, _, _, hpe⟩ := createNodes_nodes_mem hp
    have h1 : p.2 = mkNode f.path e := congrArg Prod.snd hpe
    rw [h1]
    rfl
  omega

theorem createNodes_nodesFrom (files : List ParsedFile) :
    NodesFromElements files (createNodes NewDependencyTracker files).graph := by
  intro p hp
  obtain ⟨f, e, hf, he, hpe⟩ := createNodes_nodes_mem hp
  have h1 : p.1 = nodeID e := congrArg Prod.fst hpe
  have h2 : p.2 = mkNode f.path e := congrArg Prod.snd hpe
  exact ⟨f, e, hf, he, h1, by rw [h2]; rfl⟩

/-! ## Pass-3 frame facts -/

theorem identifyPatterns_nodes (g : DependencyGraph) (order : List String) :
    (identifyPatterns g order).nodes = g.nodes := rfl

theorem identifyPatterns_totalEdges (g : DependencyGraph) (order : List String) :
    (identifyPatterns g order).totalEdges = g.totalEdges := rfl

theorem identifyPatterns_totalNodes (g : DependencyGraph) (order : List String) :
    (identifyPatterns g order).totalNodes = g.totalNodes := rfl

theorem calculateMetrics_totalEdges (g : DependencyGraph) :
    (calculateMetrics g).totalEdges = g.totalEdges := rfl

theorem calculateMetrics_totalNodes (g : DependencyGraph) :
    (calculateMetrics g).totalNodes = g.totalNodes := rfl

theorem calculateMetrics_find? (g : DependencyGraph) (x : String) :
    GoMap.find? (calculateMetrics g).nodes x =
      (GoMap.find? g.nodes x).map (fun n =>
        { n with score := n.score + (n.dependencies.length + n.dependents.length * 2) }) := by
  unfold calculateMetrics
  dsimp only
  generalize g.nodes = m
  induction m with
  | nil => simp [GoMap.find?]
  | cons p rest ih =>
    obtain ⟨k₀, v₀⟩ := p
    by_cases h₀ : k₀ = x
    · subst h₀; simp [GoMap.find?]
    · simp [GoMap.find?, beq_eq_false_iff_ne.mpr h₀, ih]

theorem calculateMetrics_mem {g : DependencyGraph} {p : String × DependencyNode}
    (hp : p ∈ (calculateMetrics g).nodes) :
    ∃ q ∈ g.nodes, p = (q.1, { q.2 with score :=
      q.2.score + (q.2.dependencies.length + q.2.dependents.length * 2) }) := by
  unfold calculateMetrics at hp
  dsimp only at hp
  obtain ⟨q, hq, hqe⟩ := List.mem_map.mp hp
  exact ⟨q, hq, hqe.symm⟩

theorem calculateMetrics_map_fst (g : DependencyGraph) :
    (calculateMetrics g).nodes.map Prod.fst = g.nodes.map Prod.fst := by
  unfold calculateMetrics
  dsimp only
  rw [List.map_map]
  rfl

theorem calculateMetrics_edgeSum (g : DependencyGraph) :
    edgeOccurrenceSum (calculateMetrics g) = edgeOccurrenceSum g := by
  unfold edgeOccurrenceSum calculateMetrics
  dsimp only
  exact GoMap.valSum_map_value
    (fun n => GoMap.valSum (fun r => r.count) n.dependencies)
    (fun n => { n with score := n.score + (n.dependencies.length + n.dependents.length * 2) })
    g.nodes

theorem calculateMetrics_symmCore {g : DependencyGraph}
    (h : EdgeSymmCore g) : EdgeSymmCore (calculateMetrics g) := by
  intro s t srcN tgtN hsN htN
  rw [calculateMetrics_find?] at hsN htN
  cases hs0 : GoMap.find? g.nodes s with
  | none => rw [hs0] at hsN; cases hsN
  | some src0 =>
  cases ht0 : GoMap.find? g.nodes t with
  | none => rw [ht0] at htN; cases htN
  | some tgt0 =>
  rw [hs0] at hsN
  rw [ht0] at htN
  obtain rfl := Option.some.inj hsN
  obtain rfl := Option.some.inj htN
  exact h s t src0 tgt0 hs0 ht0

theorem calculateMetrics_endpoints {g : DependencyGraph}
    (h : EdgeEndpointsExist g) : EdgeEndpointsExist (calculateMetrics g) := by
  obtain ⟨hFwd, hBwd⟩ := h
  constructor
  · intro s srcN t dep hsN hdep
    rw [calculateMetrics_find?] at hsN ⊢
    cases hs0 : GoMap.find? g.nodes s with
    | none => rw [hs0] at hsN; cases hsN
    | some src0 =>
      rw [hs0] at hsN
      obtain rfl := Option.some.inj hsN
      have := hFwd s src0 t dep hs0 hdep
      cases ht0 : GoMap.find? g.nodes t with
      | none => rw [ht0] at this; cases this
      | some tgt0 => simp [ht0]
  · intro t tgtN s dep htN hdep
    rw [calculateMetrics_find?] at htN ⊢
    cases ht0 : GoMap.find? g.nodes t with
    | none => rw [ht0] at htN; cases htN
    | some tgt0 =>
      rw [ht0] at htN
      obtain rfl := Option.some.inj htN
      have := hBwd t tgt0 s dep ht0 hdep
      cases hs0 : GoMap.find? g.nodes s with
      | none => rw [hs0] at this; cases this
      | some src0 => simp [hs0]

theorem calculateMetrics_refsWF {g : DependencyGraph}
    (h : RefsWellFormed g) : RefsWellFormed (calculateMetrics g) := by
  intro p hp
  obtain ⟨q, hq, hqe⟩ := calculateMetrics_mem hp
  have h2 : p.2 = { q.2 with score :=
      q.2.score + (q.2.dependencies.length + q.2.dependents.length * 2) } :=
    congrArg Prod.snd hqe
  rw [h2]
  exact h q hq

/-! ## Pass-2 step characterizations and invariant transfer -/

theorem createDependency_graph_cases (dt : DependencyTracker)
    (order : List String) (u : UsageElement) (f : ParsedFile) :
    (createDependency dt order u f).graph = dt.graph ∨
    ∃ s t, (createDependency dt order u f).graph =
      addDependencyRef dt.graph s t u.typ u.line := by
  unfold createDependency
  dsimp only
  split
  · exact Or.inl rfl
  · split
    · exact Or.inl rfl
    · split
      · exact Or.inl rfl
      · exact Or.inr ⟨_, _, rfl⟩

theorem createImportDependency_graph_cases (dt : DependencyTracker)
    (el : CodeElement) (importPath : String) (f : ParsedFile) :
    (createImportDependency dt el importPath f).graph = dt.graph ∨
    ∃ s t, (createImportDependency dt el importPath f).graph =
      addDependencyRef dt.graph s t "imports" el.line := by
  unfold createImportDependency
  dsimp only
  split
  · exact Or.inl rfl
  · split
    · exact Or.inl rfl
    · split
      · split
        · exact Or.inr ⟨_, _, rfl⟩
        · exact Or.inl rfl
      · exact Or.inl rfl

theorem foldUsages_graph_pres (P : DependencyGraph → Prop)
    (hP : EdgeStepClosed P) (order : List String) (f : ParsedFile) :
    ∀ (us : List UsageElement) (dt : DependencyTracker), P dt.graph →
      P ((us.foldl (fun dt usage =>
          createDependency { dt with allUsage := dt.allUsage ++ [usage] }
            order usage f) dt)).graph := by
  intro us
  induction us with
  | nil => intro dt h; simpa using h
  | cons u rest ih =>
    intro dt h
    refine ih _ ?_
    rcases createDependency_graph_cases
        { dt with allUsage := dt.allUsage ++ [u] } order u f with hc | ⟨s, t, hc⟩
    · rw [hc]; exact h
    · rw [hc]; exact hP _ _ _ _ _ h

theorem processFileUsage_graph_pres (P : DependencyGraph → Prop)
    (hP : EdgeStepClosed P) (dt : DependencyTracker) (order : List String)
    (f : ParsedFile) (h : P dt.graph) : P (processFileUsage dt order f).graph :=
  foldUsages_graph_pres P hP order f f.usage dt h

theorem foldImportsInner_graph_pres (P : DependencyGraph → Prop)
    (hP : EdgeStepClosed P) (use : String) (f : ParsedFile) :
    ∀ (els : List CodeElement) (dt : DependencyTracker), P dt.graph →
      P ((els.foldl (fun dt element =>
          if element.typ == "class" then createImportDependency dt element use f
          else dt) dt)).graph := by
  intro els
  induction els with
  | nil => intro dt h; simpa using h
  | cons e rest ih =>
    intro dt h
    refine ih _ ?_
    by_cases hc : (e.typ == "class") = true
    · simp only [hc, if_true]
      rcases createImportDependency_graph_cases dt e use f with hh | ⟨s, t, hh⟩
      · rw [hh]; exact h
      · rw [hh]; exact hP _ _ _ _ _ h
    · simp only [Bool.not_eq_true] at hc
      simp only [hc, Bool.false_eq_true, if_false]
      exact h

theorem processImports_graph_pres (P : DependencyGraph → Prop)
    (hP : EdgeStepClosed P) (dt : DependencyTracker) (f : ParsedFile)
    (h : P dt.graph) : P (processImports dt f).graph := by
  unfold processImports
  generalize dt = dt₀ at h ⊢
  induction f.uses generalizing dt₀ with
  | nil => simpa using h
  | cons u rest ih =>
    refine ih _ ?_
    exact foldImportsInner_graph_pres P hP u f f.elements dt₀ h

theorem buildRelationships_graph_pres (P : DependencyGraph → Prop)
    (hP : EdgeStepClosed P) (order : List String) :
    ∀ (files : List ParsedFile) (dt : DependencyTracker), P dt.graph →
      P (buildRelationships dt order files).graph := by
  intro files
  induction files with
  | nil => intro dt h; simpa [buildRelationships] using h
  | cons f rest ih =>
    intro dt h
    have h₁ := processFileUsage_graph_pres P hP dt order f h
    have h₂ := processImports_graph_pres P hP (processFileUsage dt order f) f h₁
    exact ih (processImports (processFileUsage dt order f) f) h₂

/-! ## Build-level facts -/

theorem identifyPatterns_edgeSum (g : DependencyGraph) (order : List String) :
    edgeOccurrenceSum (identifyPatterns g order) = edgeOccurrenceSum g := rfl

theorem build_edgeSum (files : List ParsedFile) (order : List String) :
    (BuildDependencyGraph files order).totalEdges
      = edgeOccurrenceSum (BuildDependencyGraph files order) := by
  unfold BuildDependencyGraph
  rw [identifyPatterns_totalEdges, calculateMetrics_totalEdges,
    identifyPatterns_edgeSum, calculateMetrics_edgeSum]
  exact buildRelationships_graph_pres (fun g => g.totalEdges = edgeOccurrenceSum g)
    edgeSumInv_closed order files (createNodes NewDependencyTracker files)
    (createNodes_edgeSum files)

theorem build_symmCore (files : List ParsedFile) (order : List String) :
    EdgeSymmCore (BuildDependencyGraph files order) := by
  have h2 := buildRelationships_graph_pres EdgeSymmCore symmCore_closed order files
    (createNodes NewDependencyTracker files) (createNodes_symmCore files)
  have h3 := calculateMetrics_symmCore h2
  intro s t srcN tgtN hsN htN
  unfold BuildDependencyGraph at hsN htN
  rw [identifyPatterns_nodes] at hsN htN
  exact h3 s t srcN tgtN hsN htN

theorem build_endpoints (files : List ParsedFile) (order : List String) :
    EdgeEndpointsExist (BuildDependencyGraph files order) := by
  have h2 := buildRelationships_graph_pres EdgeEndpointsExist endpoints_closed order
    files (createNodes NewDependencyTracker files) (createNodes_endpoints files)
  have h3 := calculateMetrics_endpoints h2
  obtain ⟨hFwd, hBwd⟩ := h3
  constructor
  · intro s srcN t dep hsN hdep
    unfold BuildDependencyGraph at hsN ⊢
    rw [identifyPatterns_nodes] at hsN ⊢
    exact hFwd s srcN t dep hsN hdep
  · intro t tgtN s dep htN hdep
    unfold BuildDependencyGraph at htN ⊢
    rw [identifyPatterns_nodes] at htN ⊢
    exact hBwd t tgtN s dep htN hdep

theorem build_refsWF (files : List ParsedFile) (order : List String) :
    RefsWellFormed (BuildDependencyGraph files order) := by
  have h2 := buildRelationships_graph_pres RefsWellFormed refsWF_closed order files
    (createNodes NewDependencyTracker files) (createNodes_refsWF files)
  have h3 := calculateMetrics_refsWF h2
  intro p hp
  unfold BuildDependencyGraph at hp
  rw [identifyPatterns_nodes] at hp
  exact h3 p hp

/-! ## Claim theorems -/

/-- C1 counterexample: in the completed build over `fileAB`, exactly one
distinct `(source, target)` dependency edge exists (the single entry in `A`'s
dependency map, updated in place by the second usage), yet `totalEdges` is 2:
the update did increment the counter, contradicting the claim. -/
theorem C1_counterexample :
    gAB.totalEdges = 2 ∧
    GoMap.valSum (fun n => n.dependencies.length) gAB.nodes = 1 :=
  ⟨by decide, by decide⟩

/-- C1 (amended): for every completed graph build, `totalEdges` equals the
total number of recorded edge occurrences — the sum of `occurrenceCount` over
all dependency entries — because `addDependencyRef` increments the counter on
every successful application, updates included; it is not the number of
distinct `(source, target)` creations. -/
theorem C1_totalEdges_counts_every_application
    (files : List ParsedFile) (order : List String) :
    (BuildDependencyGraph files order).totalEdges
      = edgeOccurrenceSum (BuildDependencyGraph files order) :=
  build_edgeSum files order

/-- C2: edge symmetry of every completed build — every dependency entry stored
on a node toward a target is mirrored by a dependent entry on the stored
target node with the same occurrence count and the same line list, and vice
versa; the two halves never exist independently. -/
theorem C2_edge_symmetry (files : List ParsedFile) (order : List String)
    (s : String) (srcN : DependencyNode) (t : String) (dep : DependencyRef)
    (hsN : GoMap.find? (BuildDependencyGraph files order).nodes s = some srcN) :
    (GoMap.find? srcN.dependencies t = some dep →
      ∃ tgtN dep', GoMap.find? (BuildDependencyGraph files order).nodes t = some tgtN ∧
        GoMap.find? tgtN.dependents s = some dep' ∧
        dep'.count = dep.count ∧ dep'.lines = dep.lines) ∧
    (GoMap.find? srcN.dependents t = some dep →
      ∃ tgtN dep', GoMap.find? (BuildDependencyGraph files order).nodes t = some tgtN ∧
        GoMap.find? tgtN.dependencies s = some dep' ∧
        dep'.count = dep.count ∧ dep'.lines = dep.lines) := by
  have hCore := build_symmCore files order
  have hEP := build_endpoints files order
  constructor
  · intro hdep
    have hSome := hEP.1 s srcN t dep hsN hdep
    cases htN : GoMap.find? (BuildDependencyGraph files order).nodes t with
    | none => rw [htN] at hSome; cases hSome
    | some tgtN =>
      have hMatch := hCore s t srcN tgtN hsN htN
      rw [hdep] at hMatch
      cases hdep' : GoMap.find? tgtN.dependents s with
      | none => rw [hdep'] at hMatch; exact absurd hMatch (by simp [OptRefMatch])
      | some dep' =>
        rw [hdep'] at hMatch
        exact ⟨tgtN, dep', rfl, hdep', hMatch.1, hMatch.2⟩
  · intro hdep
    have hSome := hEP.2 s srcN t dep hsN hdep
    cases htN : GoMap.find? (BuildDependencyGraph files order).nodes t with
    | none => rw [htN] at hSome; cases hSome
    | some tgtN =>
      have hMatch := hCore t s tgtN srcN htN hsN
      rw [hdep] at hMatch
      cases hdep' : GoMap.find? tgtN.dependencies s with
      | none => rw [hdep'] at hMatch; exact absurd hMatch (by simp [OptRefMatch])
      | some dep' =>
        rw [hdep'] at hMatch
        exact ⟨tgtN, dep', rfl, hdep', hMatch.1.symm, hMatch.2.symm⟩

/-- C2 witness: the build over `fileAB` stores the edge `A → B` with count 2
and lines `[10, 11]`, and the theorem produces its mirrored dependent entry on
`B`. -/
theorem C2_witness :
    ∃ tgtN dep', GoMap.find? gAB.nodes "class:B:2" = some tgtN ∧
      GoMap.find? tgtN.dependents "class:A:1" = some dep' ∧
      dep'.count = depABfix.count ∧ dep'.lines = depABfix.lines :=
  (C2_edge_symmetry [fileAB] ordAB "class:A:1" nodeAfix "class:B:2" depABfix
    (by decide)).1 (by decide)

/-- C10: in every completed build, every stored reference (dependency or
dependent) has `count ≥ 1` and its `count` equals the length of its `lines`
list — each recorded occurrence contributes exactly one line entry. -/
theorem C10_ref_counts (files : List ParsedFile) (order : List String)
    (p : String × DependencyNode)
    (hp : p ∈ (BuildDependencyGraph files order).nodes) :
    (∀ q ∈ p.2.dependencies, 1 ≤ q.2.count ∧ q.2.count = q.2.lines.length) ∧
    (∀ q ∈ p.2.dependents, 1 ≤ q.2.count ∧ q.2.count = q.2.lines.length) :=
  build_refsWF files order p hp

/-- C10 witness: instantiated on the `A` node of the build over `fileAB`,
whose single dependency entry has count 2 and two lines. -/
theorem C10_witness :
    (∀ q ∈ nodeAfix.dependencies, 1 ≤ q.2.count ∧ q.2.count = q.2.lines.length) ∧
    (∀ q ∈ nodeAfix.dependents, 1 ≤ q.2.count ∧ q.2.count = q.2.lines.length) :=
  C10_ref_counts [fileAB] ordAB ("class:A:1", nodeAfix) (by decide)

/-- C4: the static complexity table of the code agrees with the claim's
enumeration, and in every completed build each stored node's final score is
its element's static score plus the connectivity bonus of one point per
outgoing dependency and two points per incoming dependent. -/
theorem C4_score_formula :
    (∀ e : CodeElement, calculateComplexityScore e = specStaticScore e) ∧
    (∀ (files : List ParsedFile) (order : List String)
      (p : String × DependencyNode),
      p ∈ (BuildDependencyGraph files order).nodes →
      ∃ f e, f ∈ files ∧ e ∈ f.elements ∧ p.1 = nodeID e ∧
        p.2.score = calculateComplexityScore e
          + (p.2.dependencies.length + p.2.dependents.length * 2)) := by
  constructor
  · intro e
    unfold calculateComplexityScore specStaticScore
    split_ifs <;> simp_all
  · intro files order p hp
    unfold BuildDependencyGraph at hp
    rw [identifyPatterns_nodes] at hp
    obtain ⟨q, hq, hqe⟩ := calculateMetrics_mem hp
    have hNF := buildRelationships_graph_pres (NodesFromElements files)
      (nodesFrom_closed files) order files (createNodes NewDependencyTracker files)
      (createNodes_nodesFrom files)
    obtain ⟨f, e, hf, he, hid, hsc⟩ := hNF q hq
    refine ⟨f, e, hf, he, ?_, ?_⟩
    · rw [congrArg Prod.fst hqe]; exact hid
    · have h2 := congrArg Prod.snd hqe
      rw [h2]
      dsimp only
      rw [hsc]

/-- C4 witness: the `A` node of the build over `fileAB` scores 6 = 5 (class
base) + 1 dependency + 2 × 0 dependents. -/
theorem C4_witness :
    ∃ f e, f ∈ [fileAB] ∧ e ∈ f.elements ∧
      ("class:A:1", nodeAfix).1 = nodeID e ∧
      ("class:A:1", nodeAfix).2.score = calculateComplexityScore e
        + (("class:A:1", nodeAfix).2.dependencies.length
          + ("class:A:1", nodeAfix).2.dependents.length * 2) :=
  C4_score_formula.2 [fileAB] ordAB ("class:A:1", nodeAfix) (by decide)

/-- C3 counterexample: starting from the two-node graph `g0fix`, applying the
pair `(A, B)` first with kind `calls` and then with kind `imports` leaves a
single dependency entry of kind `calls` with count 2 — no new edge carrying
the kind `imports` is created, so edge identity does not include the kind. -/
theorem C3_counterexample :
    (GoMap.find? g2fix.nodes "class:A:1").map (fun n =>
        n.dependencies.map (fun q => (q.1, q.2.typ, q.2.count)))
      = some [("class:B:2", "calls", 2)] ∧
    g2fix.totalEdges = 2 :=
  ⟨by decide, by decide⟩

/-- C3 (amended): edge identity is the `(source, target)` pair alone.  When a
resolved pair is applied with a given kind, an existing edge between the pair
is updated — its `occurrenceCount` incremented and the line appended —
regardless of its stored kind, which is retained; only when no edge exists at
all is a new `DependencyEdge` carrying the given kind created on both maps;
`totalEdges` increments on every application. -/
theorem C3_edge_identity_ignores_kind (g : DependencyGraph) {s t : String}
    {src tgt : DependencyNode} (depType : String) (l : Nat)
    (hne : s ≠ t) (hs : GoMap.find? g.nodes s = some src)
    (ht : GoMap.find? g.nodes t = some tgt) :
    ∃ src' tgt',
      GoMap.find? (addDependencyRef g s t depType l).nodes s = some src' ∧
      GoMap.find? (addDependencyRef g s t depType l).nodes t = some tgt' ∧
      GoMap.find? src'.dependencies t =
        some (match GoMap.find? src.dependencies t with
          | some dep => { dep with count := dep.count + 1, lines := dep.lines ++ [l] }
          | none => { targetID := t, targetName := tgt.name, typ := depType,
                      count := 1, lines := [l], context := "" }) ∧
      GoMap.find? tgt'.dependents s =
        some (match GoMap.find? tgt.dependents s with
          | some dep => { dep with count := dep.count + 1, lines := dep.lines ++ [l] }
          | none => { targetID := s, targetName := src.name, typ := depType,
                      count := 1, lines := [l], context := "" }) ∧
      (addDependencyRef g s t depType l).totalEdges = g.totalEdges + 1 := by
  refine ⟨srcAfter src tgt t depType l, tgtAfter src tgt s depType l,
    ?_, ?_, ?_, ?_, ?_⟩
  · rw [addDependencyRef_nodes_find? g depType l hne hs ht s, if_neg hne, if_pos rfl]
  · rw [addDependencyRef_nodes_find? g depType l hne hs ht t, if_pos rfl]
  · rw [srcAfter_dependencies_find?, if_pos rfl]
    cases hdep : GoMap.find? src.dependencies t <;> simp [bumpRef]
  · rw [tgtAfter_dependents_find?, if_pos rfl]
    cases hdep : GoMap.find? tgt.dependents s <;> simp [bumpRef]
  · rw [addDependencyRef_eq g depType l hne hs ht]

/-- C3 witness: the amended behavior instantiated on `g0fix` with kind
`imports` at line 11. -/
theorem C3_witness :
    ∃ src' tgt',
      GoMap.find? (addDependencyRef g0fix "class:A:1" "class:B:2" "imports" 11).nodes
        "class:A:1" = some src' ∧
      GoMap.find? (addDependencyRef g0fix "class:A:1" "class:B:2" "imports" 11).nodes
        "class:B:2" = some tgt' ∧
      GoMap.find? src'.dependencies "class:B:2" =
        some (match GoMap.find? (mkNode "f.php" elA).dependencies "class:B:2" with
          | some dep => { dep with count := dep.count + 1, lines := dep.lines ++ [11] }
          | none => { targetID := "class:B:2", targetName := (mkNode "f.php" elB).name,
                      typ := "imports", count := 1, lines := [11], context := "" }) ∧
      GoMap.find? tgt'.dependents "class:A:1" =
        some (match GoMap.find? (mkNode "f.php" elB).dependents "class:A:1" with
          | some dep => { dep with count := dep.count + 1, lines := dep.lines ++ [11] }
          | none => { targetID := "class:A:1", targetName := (mkNode "f.php" elA).name,
                      typ := "imports", count := 1, lines := [11], context := "" }) ∧
      (addDependencyRef g0fix "class:A:1" "class:B:2" "imports" 11).totalEdges
        = g0fix.totalEdges + 1 :=
  @C3_edge_identity_ignores_kind g0fix "class:A:1" "class:B:2"
    (mkNode "f.php" elA) (mkNode "f.php" elB) "imports" 11
    (by decide) (by decide) (by decide)

/-- C5 counterexample: after the conflicting pair `N1\Foo`, `N2\Foo` the short
name `Foo` has been deleted from the index, yet ingesting a third declaration
`N3\Foo` in the same run indexes `Foo` again — the removal is not
irreversible. -/
theorem C5_counterexample :
    GoMap.find? (createNodes NewDependencyTracker [fileFoo12]).nodeIndex "Foo" = none ∧
    GoMap.find? (createNodes NewDependencyTracker [fileFoo123]).nodeIndex "Foo"
      = some "class:N3\\Foo:3" :=
  ⟨by decide, by decide⟩

/-- C5 (amended): a namespaced declaration whose short name is currently
indexed deletes that short-name entry, but the deletion only lasts until the
next declaration with the same short name: a namespaced declaration that finds
no current entry (and likewise any global declaration) indexes the short name
again, because the conflict check inspects only the current presence of the
entry. -/
theorem C5_short_name_removal (dt : DependencyTracker) (filePath : String)
    (e : CodeElement) (hns : e.ns ≠ "") :
    ((GoMap.find? dt.nodeIndex e.name).isSome →
      GoMap.find? (ingestElement dt filePath e).nodeIndex e.name = none) ∧
    (GoMap.find? dt.nodeIndex e.name = none →
      GoMap.find? (ingestElement dt filePath e).nodeIndex e.name
        = some (nodeID e)) := by
  have hfull : getFullName e.ns e.name ≠ e.name := by
    unfold getFullName
    rw [if_neg (by simpa using hns)]
    intro hcontra
    have hlen := congrArg String.length hcontra
    rw [String.length_append, String.length_append] at hlen
    have hone : ("\\" : String).length = 1 := rfl
    rw [hone] at hlen
    omega
  have hidx : GoMap.find?
      (GoMap.insert dt.nodeIndex (getFullName e.ns e.name) (nodeID e)) e.name
      = GoMap.find? dt.nodeIndex e.name :=
    GoMap.find?_insert_ne _ _ (Ne.symm hfull)
  constructor
  · intro hsome
    unfold ingestElement
    dsimp only
    rw [if_neg (by simpa using hns), hidx, if_pos hsome]
    exact GoMap.find?_erase_self _ _
  · intro hnone
    unfold ingestElement
    dsimp only
    rw [if_neg (by simpa using hns), hidx, hnone]
    simp only [Option.isSome_none, Bool.false_eq_true, if_false]
    exact GoMap.find?_insert_self _ _ _

/-- C5 witness: ingesting `N2\Foo` into a run that already indexed `N1\Foo`
deletes the short name `Foo`. -/
theorem C5_witness :
    GoMap.find? (ingestElement (createNodes NewDependencyTracker [fileFoo1]) "g.php"
      (fooEl "N2" 2)).nodeIndex "Foo" = none :=
  (C5_short_name_removal (createNodes NewDependencyTracker [fileFoo1]) "g.php"
    (fooEl "N2" 2) (by decide)).1 (by decide)

/-- C6: for every usage name containing `::`, `findTargetNode` returns exactly
the first hit of the three ordered attempts described by the spec — exact
full-name lookup of `namespace\className`, class-map indirection, then the
guarded short-name fallback — and the empty string when all three fail. -/
theorem C6_static_resolution_precedence (dt : DependencyTracker)
    (name ns : String) (h : containsColons name = true) :
    findTargetNode dt name ns = (resolveStaticCallSpec dt name ns).getD "" := by
  unfold findTargetNode resolveStaticCallSpec
  rw [if_pos h]
  dsimp only
  generalize (splitOnColons name).headD "" = cname
  cases h1 : GoMap.find? dt.nodeIndex (getFullName ns cname) with
  | some nid => simp [h1]
  | none =>
    cases h2 : GoMap.find? dt.namespaceMap cname with
    | some fn =>
      cases h3 : GoMap.find? dt.nodeIndex fn with
      | some nid => simp [h1, h2, h3]
      | none =>
        cases h4 : GoMap.find? dt.nodeIndex cname with
        | none => simp [h1, h2, h3, h4]
        | some nid =>
          cases h5 : GoMap.find? dt.graph.nodes nid with
          | none => simp [h1, h2, h3, h4, h5]
          | some node =>
            cases h6 : (node.ns != "" || node.file != "") with
            | true =>
              simp only [Bool.or_eq_true, bne_iff_ne] at h6
              simp [h1, h2, h3, h4, h5, h6]
            | false =>
              simp only [Bool.or_eq_false_iff, bne_eq_false_iff_eq] at h6
              simp [h1, h2, h3, h4, h5, h6.1, h6.2]
    | none =>
      cases h4 : GoMap.find? dt.nodeIndex cname with
      | none => simp [h1, h2, h4]
      | some nid =>
        cases h5 : GoMap.find? dt.graph.nodes nid with
        | none => simp [h1, h2, h4, h5]
        | some node =>
          cases h6 : (node.ns != "" || node.file != "") with
          | true =>
            simp only [Bool.or_eq_true, bne_iff_ne] at h6
            simp [h1, h2, h4, h5, h6]
          | false =>
            simp only [Bool.or_eq_false_iff, bne_eq_false_iff_eq] at h6
            simp [h1, h2, h4, h5, h6.1, h6.2]

/-- C6 witness: resolving `Foo::bar` from namespace `N1` against the index
built from `fileFoo12` agrees with the spec-side resolver. -/
theorem C6_witness :
    containsColons "Foo::bar" = true ∧
    findTargetNode (createNodes NewDependencyTracker [fileFoo12]) "Foo::bar" "N1"
      = (resolveStaticCallSpec (createNodes NewDependencyTracker [fileFoo12])
          "Foo::bar" "N1").getD "" :=
  ⟨by decide, C6_static_resolution_precedence
    (createNodes NewDependencyTracker [fileFoo12]) "Foo::bar" "N1" (by decide)⟩

/-- C7: a usage whose target does not resolve leaves the tracker — graph,
nodes, counters and indexes — completely unchanged, and an import whose path
is absent from the symbol index likewise changes nothing; no error state
exists. -/
theorem C7_unresolved_reference_no_effect :
    (∀ (dt : DependencyTracker) (order : List String) (u : UsageElement)
      (f : ParsedFile), findTargetNode dt u.name f.ns = "" →
      createDependency dt order u f = dt) ∧
    (∀ (dt : DependencyTracker) (el : CodeElement) (importPath : String)
      (f : ParsedFile), GoMap.find? dt.nodeIndex importPath = none →
      createImportDependency dt el importPath f = dt) := by
  constructor
  · intro dt order u f h
    unfold createDependency
    dsimp only
    rw [h]
    split
    · rfl
    · simp
  · intro dt el importPath f h
    unfold createImportDependency
    dsimp only
    rw [h]
    split
    · rfl
    · split
      · rfl
      · simp

/-- C7 witness: a usage of the unknown name `Missing` and an import of the
unknown path `Missing` both leave the tracker built from `fileAB0` unchanged. -/
theorem C7_witness :
    createDependency (createNodes NewDependencyTracker [fileAB0]) ordAB
        { typ := "calls", name := "Missing", context := "A", line := 3,
          isStatic := false } fileAB0
      = createNodes NewDependencyTracker [fileAB0] ∧
    createImportDependency (createNodes NewDependencyTracker [fileAB0]) elA
        "Missing" fileAB0
      = createNodes NewDependencyTracker [fileAB0] :=
  ⟨C7_unresolved_reference_no_effect.1 _ ordAB _ fileAB0 (by decide),
   C7_unresolved_reference_no_effect.2 _ elA "Missing" fileAB0 (by decide)⟩

/-- C8: edge application rejects self-references with no side effect at all —
when source and target ids coincide, `addDependencyRef` returns the graph
unchanged, so no edge is created, neither node's maps change, and `totalEdges`
is untouched. -/
theorem C8_no_self_edges (g : DependencyGraph) (s t depType : String) (l : Nat)
    (h : s = t) : addDependencyRef g s t depType l = g :=
  addDependencyRef_self g depType l h

/-- C8 witness: a self-application on the node `A` of `g0fix` is the
identity. -/
theorem C8_witness :
    addDependencyRef g0fix "class:A:1" "class:A:1" "calls" 5 = g0fix :=
  C8_no_self_edges g0fix "class:A:1" "class:A:1" "calls" 5 rfl

/-- C9 counterexample: the same parsed file built under two different node-map
iteration orders yields two different graphs (their orphan lists are in
different orders), so a two-run equality over `BuildDependencyGraph` fails:
the build result depends on Go's unspecified map iteration order. -/
theorem C9_counterexample :
    BuildDependencyGraph [fileAB0] ["class:A:1", "class:B:2"]
      ≠ BuildDependencyGraph [fileAB0] ["class:B:2", "class:A:1"] := by
  decide

/-- C9 (amended): the build is deterministic only as a function of the parsed
files together with the node-map iteration order; across different orders the
node-id multiset and `totalNodes` still agree (pass 1 never ranges over a
map), but the full graphs — edge attribution and the orphan/most-depended/
most-complex orderings — need not. -/
theorem C9_order_independent_nodes (files : List ParsedFile)
    (o₁ o₂ : List String) :
    (BuildDependencyGraph files o₁).totalNodes
      = (BuildDependencyGraph files o₂).totalNodes ∧
    (BuildDependencyGraph files o₁).nodes.map Prod.fst
      = (BuildDependencyGraph files o₂).nodes.map Prod.fst := by
  have key : ∀ o : List String,
      (BuildDependencyGraph files o).totalNodes
        = (createNodes NewDependencyTracker files).graph.totalNodes ∧
      (BuildDependencyGraph files o).nodes.map Prod.fst
        = (createNodes NewDependencyTracker files).graph.nodes.map Prod.fst := by
    intro o
    have h := buildRelationships_graph_pres
      (fun g => g.nodes.map Prod.fst
          = (createNodes NewDependencyTracker files).graph.nodes.map Prod.fst ∧
        g.totalNodes = (createNodes NewDependencyTracker files).graph.totalNodes)
      (keysInv_closed _ _) o files (createNodes NewDependencyTracker files)
      ⟨rfl, rfl⟩
    obtain ⟨hk, hn⟩ := h
    constructor
    · unfold BuildDependencyGraph
      rw [identifyPatterns_totalNodes, calculateMetrics_totalNodes]
      exact hn
    · unfold BuildDependencyGraph
      rw [identifyPatterns_nodes, calculateMetrics_map_fst]
      exact hk
  exact ⟨(key o₁).1.trans (key o₂).1.symm, (key o₁).2.trans (key o₂).2.symm⟩

end Tukey
